import Mathlib

/-
Verification of the staff availability / scheduling-conflict engine in
src/lib/staff-availability-utils.ts.

Modelling conventions:
* Calendar dates are modelled as integers (day numbers since a fixed epoch).
  Every date handled by the engine is an ISO YYYY-MM-DD string parsed by
  new Date(...) to a midnight-UTC timestamp, so comparison of Date objects
  is exactly comparison of day numbers, and setDate(getDate() + k) is
  addition of k days.  toISOString().split(...)[0] is then the identity.
* Nullable / optional TypeScript fields become Option values.  A falsy
  string field (undefined, null, or the empty string used in a truthiness
  test) is modelled as none where the code only tests truthiness
  (event_end_date); where the code compares the value itself the field is
  Option String and the empty string stays representable.
* The Supabase query is modelled by an explicit store (the joined tables
  event_staff_assignments and events) plus the server-side filters the
  code installs (inner join on event_id, eq on events.firm_id, neq on
  event_id).  A failed fetch - a query error, a thrown exception, or a
  null data payload, which the source all sends down the same recovery
  path - is the DbResult.failed case.
* All engine functions are pure in the source (they never write to the
  store), so the embedding needs no state threading.
-/

/- Calendar dates are plain Int day numbers (see the header note). -/

/-- interface DateRange: startDate / endDate, inclusive calendar dates. -/
structure DateRange where
  startDate : Int
  endDate : Int
deriving DecidableEq, Repr

/-- datesOverlap from staff-availability-utils.ts: the four-clause
disjunction written in the source. -/
def datesOverlap (range1 range2 : DateRange) : Bool :=
  (decide (range1.startDate ≥ range2.startDate) &&
    decide (range1.startDate ≤ range2.endDate)) ||
  (decide (range1.endDate ≥ range2.startDate) &&
    decide (range1.endDate ≤ range2.endDate)) ||
  (decide (range1.startDate ≤ range2.startDate) &&
    decide (range1.endDate ≥ range2.endDate)) ||
  (decide (range2.startDate ≤ range1.startDate) &&
    decide (range2.endDate ≥ range1.endDate))

/-- The reference overlap predicate, written from the words of the
specification: two inclusive ranges overlap iff
a.start <= b.end AND b.start <= a.end. -/
def datesOverlapSpec (a b : DateRange) : Bool :=
  decide (a.startDate ≤ b.endDate) && decide (b.startDate ≤ a.endDate)

/-- interface EventDateInfo.  total_days is the number the call sites pass
(already normalised there by total_days or-else 1). -/
structure EventDateInfo where
  event_date : Int
  event_end_date : Option Int
  total_days : Int
deriving DecidableEq, Repr

/-- calculateEventDateRange: start is event_date; end is the explicit
event_end_date when it is truthy, otherwise start + (total_days - 1) days. -/
def calculateEventDateRange (eventInfo : EventDateInfo) : DateRange :=
  { startDate := eventInfo.event_date
    endDate :=
      match eventInfo.event_end_date with
      | some e => e
      | none => eventInfo.event_date + (eventInfo.total_days - 1) }

/-- The call-site normalisation `event.total_days || 1`: a missing (null /
undefined) or zero value becomes 1; every other number, negative numbers
included, passes through unchanged. -/
def normTotalDays (td : Option Int) : Int :=
  match td with
  | none => 1
  | some t => if t = 0 then 1 else t

/-- A row of the event_staff_assignments table (the columns the queries
select). -/
structure AssignmentRow where
  staff_id : Option String
  freelancer_id : Option String
  role : String
  day_number : Int
  day_date : Int
  event_id : String
deriving DecidableEq, Repr

/-- A row of the events table (the columns the queries select). -/
structure EventRecord where
  id : String
  title : String
  event_date : Int
  event_end_date : Option Int
  total_days : Option Int
  firm_id : Option String
deriving DecidableEq, Repr

/-- The backing data store: the two tables the engine reads. -/
structure Store where
  events : List EventRecord
  assignments : List AssignmentRow
deriving Repr

/-- interface StaffAssignment: the shape getConflictingAssignments maps its
result rows onto. -/
structure StaffAssignment where
  staff_id : Option String
  freelancer_id : Option String
  role : String
  day_number : Int
  day_date : Int
  event_id : String
deriving DecidableEq, Repr

/-- The projection at the end of getConflictingAssignments: keep exactly the
six selected assignment columns. -/
def AssignmentRow.toStaffAssignment (a : AssignmentRow) : StaffAssignment :=
  { staff_id := a.staff_id
    freelancer_id := a.freelancer_id
    role := a.role
    day_number := a.day_number
    day_date := a.day_date
    event_id := a.event_id }

/-- The inner join events!inner on event_id: the parent event of an
assignment row. -/
def lookupEvent (store : Store) (eventId : String) : Option EventRecord :=
  store.events.find? (fun e => decide (e.id = eventId))

/-- The server-side filter .eq(events.firm_id, firmId), installed only when
firmId is provided. -/
def matchesFirm (firmId : Option String) (e : EventRecord) : Bool :=
  match firmId with
  | some f => decide (e.firm_id = some f)
  | none => true

/-- The server-side filter .neq(event_id, excludeEventId), installed only
when excludeEventId is provided. -/
def notExcluded (excludeEventId : Option String) (eventId : String) : Bool :=
  match excludeEventId with
  | some x => decide (eventId ≠ x)
  | none => true

/-- The rows the Supabase query returns on success: each assignment row
inner-joined with its parent event, restricted by the firm and exclusion
filters. -/
def queryAssignmentsWithEvents (store : Store)
    (excludeEventId firmId : Option String) :
    List (AssignmentRow × EventRecord) :=
  store.assignments.filterMap (fun a =>
    match lookupEvent store a.event_id with
    | none => none
    | some e =>
      if matchesFirm firmId e && notExcluded excludeEventId a.event_id
      then some (a, e) else none)

/-- Outcome of the data-store fetch.  failed collapses the three recovery
paths of the source (query error, thrown exception, null data payload),
which all produce the same permissive result. -/
inductive DbResult where
  | ok : Store → DbResult
  | failed : DbResult

/-- The derived date range of a stored event, exactly as the filter inside
getConflictingAssignments computes it (total_days normalised by or-else 1). -/
def eventRange (e : EventRecord) : DateRange :=
  calculateEventDateRange
    { event_date := e.event_date
      event_end_date := e.event_end_date
      total_days := normTotalDays e.total_days }

/-- getConflictingAssignments: on a failed fetch return []; otherwise keep
the joined rows whose event range overlaps dateRange and project them to
StaffAssignment. -/
def getConflictingAssignments (db : DbResult) (dateRange : DateRange)
    (excludeEventId firmId : Option String) : List StaffAssignment :=
  match db with
  | .failed => []
  | .ok store =>
    ((queryAssignmentsWithEvents store excludeEventId firmId).filter
      (fun ae => datesOverlap dateRange (eventRange ae.2))).map
      (fun ae => ae.1.toStaffAssignment)

/-- isPersonAvailable: a falsy personId is immediately available; otherwise
the person is available iff no conflicting assignment references them as
staff_id or freelancer_id. -/
def isPersonAvailable (db : DbResult) (personId : String)
    (dateRange : DateRange) (excludeEventId firmId : Option String) : Bool :=
  if personId = "" then true
  else
    !((getConflictingAssignments db dateRange excludeEventId firmId).any
      (fun a => decide (a.staff_id = some personId)
        || decide (a.freelancer_id = some personId)))

/-- A candidate person (the generic T extends \x7b id: string \x7d of the
source, plus the display name the Staff interface carries). -/
structure Person where
  id : String
  full_name : String
deriving DecidableEq, Repr

/-- JavaScript `a || b` on two optional strings: the left value when it is
truthy (present and non-empty), otherwise the right value. -/
def jsOrString (a b : Option String) : Option String :=
  match a with
  | some s => if s = "" then b else some s
  | none => b

/-- The id contributed by one assignment to the unavailable set:
staff_id || freelancer_id, with falsy results dropped by .filter(Boolean). -/
def pickPersonId (a : StaffAssignment) : Option String :=
  match jsOrString a.staff_id a.freelancer_id with
  | some s => if s = "" then none else some s
  | none => none

/-- The set of unavailable person ids built inside filterAvailablePeople. -/
def unavailableIds (conflicting : List StaffAssignment) : List String :=
  conflicting.filterMap pickPersonId

/-- filterAvailablePeople: an empty candidate list short-circuits to [];
otherwise keep the people whose id is not in the unavailable set. -/
def filterAvailablePeople (db : DbResult) (people : List Person)
    (dateRange : DateRange) (excludeEventId firmId : Option String) :
    List Person :=
  if people.isEmpty then []
  else
    let ids := unavailableIds
      (getConflictingAssignments db dateRange excludeEventId firmId)
    people.filter (fun p => !(ids.contains p.id))

/-- One entry of the conflictingEvents list of getPersonConflictDetails. -/
structure ConflictingEvent where
  eventId : String
  eventTitle : String
  role : String
  dateRange : DateRange
deriving DecidableEq, Repr

/-- The result shape of getPersonConflictDetails. -/
structure ConflictDetails where
  hasConflict : Bool
  conflictingEvents : List ConflictingEvent
deriving DecidableEq, Repr

/-- getPersonConflictDetails: falsy personId or a failed fetch yield
\x7bhasConflict := false, conflictingEvents := []\x7d; otherwise the query is
additionally restricted to rows referencing personId (the .or filter on
staff_id / freelancer_id), the overlapping rows are kept, and each is
rendered with its event id, title, role and derived range. -/
def getPersonConflictDetails (db : DbResult) (personId : String)
    (dateRange : DateRange) (excludeEventId firmId : Option String) :
    ConflictDetails :=
  if personId = "" then { hasConflict := false, conflictingEvents := [] }
  else
    match db with
    | .failed => { hasConflict := false, conflictingEvents := [] }
    | .ok store =>
      let rows := (queryAssignmentsWithEvents store excludeEventId
          firmId).filter
        (fun ae => decide (ae.1.staff_id = some personId)
          || decide (ae.1.freelancer_id = some personId))
      let conflictingEvents := (rows.filter
          (fun ae => datesOverlap dateRange (eventRange ae.2))).map
        (fun ae =>
          { eventId := ae.2.id
            eventTitle := ae.2.title
            role := ae.1.role
            dateRange := eventRange ae.2 })
      { hasConflict := !conflictingEvents.isEmpty
        conflictingEvents := conflictingEvents }

/-
Day numbers used in the concrete examples of the specification, counted
from 1970-01-01 (day 0): 2024-01-10 is day 19732, 2024-01-12 is day 19734,
2024-01-15 is day 19737.
-/
def day2024_01_10 : Int := 19732
def day2024_01_12 : Int := 19734
def day2024_01_15 : Int := 19737

/-- Claim C9: datesOverlap is symmetric on all inputs, and every range
overlaps itself. -/
theorem datesOverlap_symm_and_refl :
    (∀ a b : DateRange, datesOverlap a b = datesOverlap b a) ∧
    (∀ a : DateRange, datesOverlap a a = true) := by
  constructor
  · intro a b
    rcases a with ⟨s1, e1⟩
    rcases b with ⟨s2, e2⟩
    rw [Bool.eq_iff_iff]
    simp only [datesOverlap, Bool.or_eq_true, Bool.and_eq_true,
      decide_eq_true_eq]
    omega
  · intro a
    rcases a with ⟨s, e⟩
    simp only [datesOverlap, Bool.or_eq_true, Bool.and_eq_true,
      decide_eq_true_eq]
    omega

/-- Claim C5, counterexample: on a malformed first range (start after end)
the implemented four-clause disjunction and the reference definition of the
specification disagree, so the equivalence does not hold for all inputs. -/
theorem datesOverlap_ne_spec_at_malformed :
    datesOverlap ⟨5, 0⟩ ⟨3, 10⟩ = true ∧
    datesOverlapSpec ⟨5, 0⟩ ⟨3, 10⟩ = false := by
  constructor <;> rfl

/-- Claim C5, amended: for well-formed ranges (start at most end on both
sides) the implemented four-clause disjunction coincides with the
reference definition a.start <= b.end AND b.start <= a.end. -/
theorem datesOverlap_eq_spec_of_wellFormed (a b : DateRange)
    (ha : a.startDate ≤ a.endDate) (hb : b.startDate ≤ b.endDate) :
    datesOverlap a b = datesOverlapSpec a b := by
  rcases a with ⟨s1, e1⟩
  rcases b with ⟨s2, e2⟩
  simp only at ha hb
  rw [Bool.eq_iff_iff]
  simp only [datesOverlap, datesOverlapSpec, Bool.or_eq_true,
    Bool.and_eq_true, decide_eq_true_eq]
  omega

/-- Witness for claim C5: the amended equivalence instantiated at the
well-formed ranges [0,1] and [1,2]. -/
theorem datesOverlap_eq_spec_wellFormed_witness :
    (DateRange.mk 0 1).startDate ≤ (DateRange.mk 0 1).endDate ∧
    (DateRange.mk 1 2).startDate ≤ (DateRange.mk 1 2).endDate ∧
    datesOverlap ⟨0, 1⟩ ⟨1, 2⟩ = datesOverlapSpec ⟨0, 1⟩ ⟨1, 2⟩ :=
  ⟨by decide, by decide,
    datesOverlap_eq_spec_of_wellFormed ⟨0, 1⟩ ⟨1, 2⟩ (by decide) (by decide)⟩

/-- Claim C7: calculateEventDateRange returns the event start as start, the
explicit end date when present, and otherwise start + (totalDays - 1) days;
including the two concrete examples of the specification. -/
theorem calculateEventDateRange_start_end :
    (∀ info : EventDateInfo,
      (calculateEventDateRange info).startDate = info.event_date ∧
      (calculateEventDateRange info).endDate =
        (match info.event_end_date with
         | some e => e
         | none => info.event_date + (info.total_days - 1))) ∧
    calculateEventDateRange ⟨day2024_01_10, none, 3⟩ =
      ⟨day2024_01_10, day2024_01_12⟩ ∧
    calculateEventDateRange ⟨day2024_01_10, some day2024_01_15, 1⟩ =
      ⟨day2024_01_10, day2024_01_15⟩ := by
  refine ⟨fun info => ?_, by rfl, by rfl⟩
  rcases info with ⟨d, oe, td⟩
  cases oe <;> simp [calculateEventDateRange]

/-- Claim C6, counterexample: the call-site normalisation total_days || 1
leaves a negative stored total_days unchanged, and with total_days = -1 and
no explicit end date the derived range has its end strictly before its
start. -/
theorem calculateEventDateRange_end_lt_start_cex :
    (calculateEventDateRange
      ⟨0, none, normTotalDays (some (-1))⟩).endDate <
    (calculateEventDateRange
      ⟨0, none, normTotalDays (some (-1))⟩).startDate := by
  decide

/-- Claim C6, amended: whenever total_days is at least 1 (which the
normalisation guarantees for stored values that are absent, zero or
positive, but not for negative ones) and any explicit end date is not
before the start date, the derived range satisfies end >= start. -/
theorem calculateEventDateRange_end_ge_start (info : EventDateInfo)
    (htd : 1 ≤ info.total_days)
    (hend : ∀ e, info.event_end_date = some e → info.event_date ≤ e) :
    (calculateEventDateRange info).startDate ≤
      (calculateEventDateRange info).endDate := by
  rcases info with ⟨d, oe, td⟩
  cases oe with
  | none =>
    dsimp only [calculateEventDateRange] at htd ⊢
    omega
  | some e =>
    simpa [calculateEventDateRange] using hend e rfl

/-- Witness for claim C6: the amended bound instantiated at an event with
start day 0, no explicit end and total_days 1. -/
theorem calculateEventDateRange_end_ge_start_witness :
    1 ≤ (EventDateInfo.mk 0 none 1).total_days ∧
    (∀ e, (EventDateInfo.mk 0 none 1).event_end_date = some e →
      (EventDateInfo.mk 0 none 1).event_date ≤ e) ∧
    (calculateEventDateRange ⟨0, none, 1⟩).startDate ≤
      (calculateEventDateRange ⟨0, none, 1⟩).endDate := by
  refine ⟨by decide, fun e h => Option.noConfusion h, ?_⟩
  exact calculateEventDateRange_end_ge_start ⟨0, none, 1⟩ (by decide)
    (fun e h => Option.noConfusion h)

/-- Membership in the joined query result: exactly the stored assignment
rows whose parent event exists and passes the firm and exclusion filters. -/
theorem mem_queryAssignmentsWithEvents (store : Store)
    (excl firm : Option String) (ae : AssignmentRow × EventRecord) :
    ae ∈ queryAssignmentsWithEvents store excl firm ↔
      ae.1 ∈ store.assignments ∧
      lookupEvent store ae.1.event_id = some ae.2 ∧
      matchesFirm firm ae.2 = true ∧
      notExcluded excl ae.1.event_id = true := by
  simp only [queryAssignmentsWithEvents, List.mem_filterMap]
  constructor
  · rintro ⟨a, ha, hfa⟩
    split at hfa
    · cases hfa
    · rename_i e hl
      split at hfa
      · rename_i hcond
        injection hfa with h
        subst h
        rw [Bool.and_eq_true] at hcond
        exact ⟨ha, hl, hcond.1, hcond.2⟩
      · cases hfa
  · rintro ⟨ha, hl, hf, hx⟩
    refine ⟨ae.1, ha, ?_⟩
    rw [hl]
    simp [hf, hx]

/-- Membership in a successful getConflictingAssignments call: projections
of stored assignment rows whose parent event passes the filters and whose
derived range overlaps the queried range. -/
theorem mem_getConflictingAssignments_ok (store : Store) (r : DateRange)
    (excl firm : Option String) (x : StaffAssignment) :
    x ∈ getConflictingAssignments (.ok store) r excl firm ↔
      ∃ a e, a ∈ store.assignments ∧
        lookupEvent store a.event_id = some e ∧
        matchesFirm firm e = true ∧
        notExcluded excl a.event_id = true ∧
        datesOverlap r (eventRange e) = true ∧
        x = a.toStaffAssignment := by
  simp only [getConflictingAssignments, List.mem_map, List.mem_filter]
  constructor
  · rintro ⟨ae, ⟨hmem, hov⟩, rfl⟩
    rw [mem_queryAssignmentsWithEvents] at hmem
    exact ⟨ae.1, ae.2, hmem.1, hmem.2.1, hmem.2.2.1, hmem.2.2.2, hov, rfl⟩
  · rintro ⟨a, e, ha, hl, hf, hx, hov, rfl⟩
    exact ⟨(a, e),
      ⟨(mem_queryAssignmentsWithEvents store excl firm (a, e)).mpr
        ⟨ha, hl, hf, hx⟩, hov⟩, rfl⟩

/-- The firm filter with a provided firm id holds exactly on events of that
firm. -/
theorem matchesFirm_some_iff (t : String) (e : EventRecord) :
    matchesFirm (some t) e = true ↔ e.firm_id = some t := by
  simp [matchesFirm]

/-- The exclusion filter holds exactly when the event id differs from the
provided excluded id (vacuously when no id is provided). -/
theorem notExcluded_iff (excl : Option String) (eid : String) :
    notExcluded excl eid = true ↔ ∀ x, excl = some x → eid ≠ x := by
  cases excl <;> simp [notExcluded]

/-- Claim C2: a successful getConflictingAssignments call returns exactly
the projections of the stored assignments whose parent event belongs to the
given tenant, is not the excluded event, and whose derived date range
(calculateEventDateRange with total_days defaulted to 1 when absent)
overlaps the queried range.  The operation is read-only: it is a pure
function of the store. -/
theorem getConflictingAssignments_characterization (store : Store)
    (r : DateRange) (tenant : String) (excl : Option String)
    (x : StaffAssignment) :
    x ∈ getConflictingAssignments (.ok store) r excl (some tenant) ↔
      ∃ a e, a ∈ store.assignments ∧
        lookupEvent store a.event_id = some e ∧
        e.firm_id = some tenant ∧
        (∀ xid, excl = some xid → a.event_id ≠ xid) ∧
        datesOverlap r (calculateEventDateRange
          { event_date := e.event_date
            event_end_date := e.event_end_date
            total_days := normTotalDays e.total_days }) = true ∧
        x = a.toStaffAssignment := by
  rw [mem_getConflictingAssignments_ok]
  constructor
  · rintro ⟨a, e, ha, hl, hf, hx, hov, rfl⟩
    exact ⟨a, e, ha, hl, (matchesFirm_some_iff tenant e).mp hf,
      (notExcluded_iff excl a.event_id).mp hx, hov, rfl⟩
  · rintro ⟨a, e, ha, hl, hf, hx, hov, rfl⟩
    exact ⟨a, e, ha, hl, (matchesFirm_some_iff tenant e).mpr hf,
      (notExcluded_iff excl a.event_id).mpr hx, hov, rfl⟩

/-- Claim C1: tenant isolation.  Every assignment returned by a query scoped
to tenant T1 has a parent event of tenant T1, so for any distinct tenant T2
no returned assignment has a parent event of T2, whatever the date range
and exclusion argument. -/
theorem tenant_isolation_getConflictingAssignments (store : Store)
    (r : DateRange) (excl : Option String) (T1 T2 : String) (hT : T1 ≠ T2)
    (x : StaffAssignment)
    (hx : x ∈ getConflictingAssignments (.ok store) r excl (some T1)) :
    ∀ e, lookupEvent store x.event_id = some e → e.firm_id ≠ some T2 := by
  intro e he
  rw [mem_getConflictingAssignments_ok] at hx
  rcases hx with ⟨a, e', ha, hl, hf, hxcl, hov, rfl⟩
  have hee : e = e' := by
    have : lookupEvent store a.event_id = some e := he
    rw [hl] at this
    exact (Option.some.inj this).symm
  subst hee
  rw [matchesFirm_some_iff] at hf
  rw [hf]
  intro hcontra
  exact hT (Option.some.inj hcontra)

/-- A concrete tenant-t1 event used by the closed witnesses. -/
def demoEvent : EventRecord :=
  { id := "e1"
    title := "Wedding"
    event_date := 10
    event_end_date := none
    total_days := some 2
    firm_id := some "t1" }

/-- A concrete assignment of person p1 to the demo event. -/
def demoAssignment : AssignmentRow :=
  { staff_id := some "p1"
    freelancer_id := none
    role := "Photographer"
    day_number := 1
    day_date := 10
    event_id := "e1" }

/-- The concrete store backing the closed witnesses. -/
def demoStore : Store :=
  { events := [demoEvent], assignments := [demoAssignment] }

/-- Witness for claim C1: the isolation theorem applied to the demo store,
whose single returned assignment belongs to tenant t1 and therefore not to
the distinct tenant t2. -/
theorem tenant_isolation_witness :
    "t1" ≠ "t2" ∧
    demoAssignment.toStaffAssignment ∈
      getConflictingAssignments (.ok demoStore) ⟨10, 11⟩ none (some "t1") ∧
    ∀ e, lookupEvent demoStore demoAssignment.toStaffAssignment.event_id =
        some e → e.firm_id ≠ some "t2" := by
  refine ⟨by decide, by decide, ?_⟩
  exact tenant_isolation_getConflictingAssignments demoStore ⟨10, 11⟩ none
    "t1" "t2" (by decide) demoAssignment.toStaffAssignment (by decide)

/-- Claim C4: fail-open error handling.  When the backing fetch fails (query
error, thrown exception, or null payload), getConflictingAssignments
returns [], isPersonAvailable returns true, and getPersonConflictDetails
returns no conflict, for every argument combination. -/
theorem failOpen_on_store_failure (r : DateRange) (personId : String)
    (excl firm : Option String) :
    getConflictingAssignments .failed r excl firm = [] ∧
    isPersonAvailable .failed personId r excl firm = true ∧
    getPersonConflictDetails .failed personId r excl firm =
      { hasConflict := false, conflictingEvents := [] } := by
  refine ⟨rfl, ?_, ?_⟩
  · unfold isPersonAvailable
    split <;> rfl
  · unfold getPersonConflictDetails
    split <;> rfl

/-- Availability helper: isPersonAvailable returns true exactly when the
person id is falsy or no conflicting assignment references it. -/
theorem isPersonAvailable_true_iff (db : DbResult) (personId : String)
    (r : DateRange) (excl firm : Option String) :
    isPersonAvailable db personId r excl firm = true ↔
      (personId = "" ∨
        ∀ a ∈ getConflictingAssignments db r excl firm,
          ¬(a.staff_id = some personId ∨ a.freelancer_id = some personId)) := by
  unfold isPersonAvailable
  by_cases h : personId = ""
  · simp [h]
  · rw [if_neg h, or_iff_right h]
    simp [not_or]

/-- Claim C3: isPersonAvailable is true iff no assignment returned by
getConflictingAssignments for the same range, exclusion and tenant
references the person as staff_id or freelancer_id; a person with no
assignments is trivially available and an empty personId always yields
true (both are instances of the right-hand side). -/
theorem isPersonAvailable_characterization (db : DbResult)
    (personId : String) (r : DateRange) (excl firm : Option String) :
    isPersonAvailable db personId r excl firm = true ↔
      (personId = "" ∨
        ∀ a ∈ getConflictingAssignments db r excl firm,
          ¬(a.staff_id = some personId ∨ a.freelancer_id = some personId)) :=
  isPersonAvailable_true_iff db personId r excl firm

/-- Membership in the unavailable id set built by filterAvailablePeople. -/
theorem mem_unavailableIds (l : List StaffAssignment) (s : String) :
    s ∈ unavailableIds l ↔ ∃ a ∈ l, pickPersonId a = some s := by
  simp [unavailableIds, List.mem_filterMap]

/-- filterAvailablePeople membership helper: a person is kept iff they are
in the input and their id is not among the unavailable ids. -/
theorem mem_filterAvailablePeople (db : DbResult) (people : List Person)
    (r : DateRange) (excl firm : Option String) (p : Person) :
    p ∈ filterAvailablePeople db people r excl firm ↔
      (p ∈ people ∧
        p.id ∉ unavailableIds (getConflictingAssignments db r excl firm)) := by
  unfold filterAvailablePeople
  by_cases h : people.isEmpty
  · rw [if_pos h]
    rw [List.isEmpty_iff] at h
    subst h
    simp
  · rw [if_neg h, List.mem_filter]
    simp

/-- Claim C8: filterAvailablePeople is a pure filter: the result is a
subsequence of the input (so order is preserved and no person is added),
and it keeps exactly the input people whose id is not among the
conflicting assignments referenced person ids. -/
theorem filterAvailablePeople_pure_filter (db : DbResult)
    (people : List Person) (r : DateRange) (excl firm : Option String) :
    (filterAvailablePeople db people r excl firm).Sublist people ∧
    ∀ p, p ∈ filterAvailablePeople db people r excl firm ↔
      (p ∈ people ∧
        p.id ∉ unavailableIds (getConflictingAssignments db r excl firm)) := by
  constructor
  · unfold filterAvailablePeople
    by_cases h : people.isEmpty
    · rw [if_pos h]; exact List.nil_sublist people
    · rw [if_neg h]; exact List.filter_sublist people
  · exact mem_filterAvailablePeople db people r excl firm

/-- pickPersonId never yields the empty string: .filter(Boolean) drops it. -/
theorem pickPersonId_ne_some_empty (a : StaffAssignment) :
    pickPersonId a ≠ some "" := by
  unfold pickPersonId
  split
  · split
    · exact fun h => Option.noConfusion h
    · rename_i hne
      intro h
      exact hne (Option.some.inj h)
  · exact fun h => Option.noConfusion h

/-- Under the one-reference-field invariant, pickPersonId yields a non-empty
person id exactly when one of the two reference fields equals it. -/
theorem pickPersonId_eq_some_iff (x : StaffAssignment) (pid : String)
    (hpid : pid ≠ "")
    (hx : (x.staff_id.isSome ∧ x.freelancer_id = none) ∨
      (x.staff_id = none ∧ x.freelancer_id.isSome)) :
    pickPersonId x = some pid ↔
      (x.staff_id = some pid ∨ x.freelancer_id = some pid) := by
  rcases hx with ⟨hs, hf⟩ | ⟨hs, hf⟩
  · obtain ⟨s, hso⟩ := Option.isSome_iff_exists.mp hs
    by_cases hse : s = ""
    · subst hse
      simp [pickPersonId, jsOrString, hso, hf]
      exact fun h => hpid h.symm
    · simp [pickPersonId, jsOrString, hso, hf, hse]
  · obtain ⟨f, hfo⟩ := Option.isSome_iff_exists.mp hf
    by_cases hfe : f = ""
    · subst hfe
      simp [pickPersonId, jsOrString, hs, hfo]
      exact fun h => hpid h.symm
    · simp [pickPersonId, jsOrString, hs, hfo, hfe]

/-- Every assignment a successful query returns inherits the
one-reference-field invariant from the store. -/
theorem conflicting_one_person_ref (store : Store) (r : DateRange)
    (excl firm : Option String)
    (hinv : ∀ a ∈ store.assignments,
      (a.staff_id.isSome ∧ a.freelancer_id = none) ∨
      (a.staff_id = none ∧ a.freelancer_id.isSome))
    (x : StaffAssignment)
    (hx : x ∈ getConflictingAssignments (.ok store) r excl firm) :
    (x.staff_id.isSome ∧ x.freelancer_id = none) ∨
    (x.staff_id = none ∧ x.freelancer_id.isSome) := by
  obtain ⟨a, e, ha, -, -, -, -, rfl⟩ :=
    (mem_getConflictingAssignments_ok store r excl firm x).mp hx
  exact hinv a ha

/-- Claim C10: when every stored assignment sets exactly one of staff_id
and freelancer_id, filterAvailablePeople keeps exactly the people for whom
isPersonAvailable returns true with the same arguments. -/
theorem filterAvailablePeople_agrees_isPersonAvailable (store : Store)
    (people : List Person) (r : DateRange) (excl firm : Option String)
    (hinv : ∀ a ∈ store.assignments,
      (a.staff_id.isSome ∧ a.freelancer_id = none) ∨
      (a.staff_id = none ∧ a.freelancer_id.isSome))
    (p : Person) (hp : p ∈ people) :
    (p ∈ filterAvailablePeople (.ok store) people r excl firm ↔
      isPersonAvailable (.ok store) p.id r excl firm = true) := by
  rw [mem_filterAvailablePeople, isPersonAvailable_true_iff]
  by_cases hid : p.id = ""
  · constructor
    · intro _
      exact Or.inl hid
    · intro _
      refine ⟨hp, ?_⟩
      rw [mem_unavailableIds]
      rintro ⟨a, ha, hpick⟩
      rw [hid] at hpick
      exact pickPersonId_ne_some_empty a hpick
  · constructor
    · rintro ⟨-, hnot⟩
      right
      intro a ha hcon
      apply hnot
      rw [mem_unavailableIds]
      exact ⟨a, ha, (pickPersonId_eq_some_iff a p.id hid
        (conflicting_one_person_ref store r excl firm hinv a ha)).mpr hcon⟩
    · intro h
      refine ⟨hp, ?_⟩
      rcases h with h' | hnoref
      · exact absurd h' hid
      · rw [mem_unavailableIds]
        rintro ⟨a, ha, hpick⟩
        exact hnoref a ha ((pickPersonId_eq_some_iff a p.id hid
          (conflicting_one_person_ref store r excl firm hinv a ha)).mp hpick)

/-- Witness for claim C10: the agreement theorem applied to the demo store,
which satisfies the one-reference-field invariant, and a single candidate. -/
theorem filterAvailablePeople_agrees_witness :
    (∀ a ∈ demoStore.assignments,
      (a.staff_id.isSome ∧ a.freelancer_id = none) ∨
      (a.staff_id = none ∧ a.freelancer_id.isSome)) ∧
    Person.mk "p1" "Alice" ∈ [Person.mk "p1" "Alice"] ∧
    (Person.mk "p1" "Alice" ∈ filterAvailablePeople (.ok demoStore)
        [Person.mk "p1" "Alice"] ⟨10, 11⟩ none (some "t1") ↔
      isPersonAvailable (.ok demoStore) (Person.mk "p1" "Alice").id
        ⟨10, 11⟩ none (some "t1") = true) := by
  refine ⟨by decide, by decide, ?_⟩
  exact filterAvailablePeople_agrees_isPersonAvailable demoStore
    [Person.mk "p1" "Alice"] ⟨10, 11⟩ none (some "t1") (by decide)
    (Person.mk "p1" "Alice") (by decide)
